import Mathlib

/-!
Verification of the `lifespeed` backend (`src-tauri/src/commands`).

Strings are modelled as `List Char`; Rust byte indices are treated as
character indices (exact for single-byte characters, which covers every
delimiter the code manipulates).  A Rust panic (an out-of-bounds slice)
is modelled by `Option`/`RunResult.panicked`; a Rust `Err` by
`RunResult.err` carrying the formatted message.  File-system state is a
snapshot record passed explicitly to each handler, and the mutating OS
calls a handler performs are listed by a companion `_writes`/ops
projection of the same code path.
-/

namespace Lifespeed

/-- Unicode code points with the White_Space property, as used by Rust's
`char::is_whitespace` (called by `str::trim` / `trim_start`). -/
def wsCodes : List UInt32 :=
  [0x9, 0xA, 0xB, 0xC, 0xD, 0x20, 0x85, 0xA0, 0x1680,
   0x2000, 0x2001, 0x2002, 0x2003, 0x2004, 0x2005, 0x2006, 0x2007,
   0x2008, 0x2009, 0x200A, 0x2028, 0x2029, 0x202F, 0x205F, 0x3000]

/-- Rust `char::is_whitespace`. -/
def isWS (c : Char) : Bool := wsCodes.contains c.val

/-- Rust `str::trim_start` (entry.rs line 182). -/
def trimStart (l : List Char) : List Char := l.dropWhile isWS

/-- Rust `str::trim_end`. -/
def trimEnd (l : List Char) : List Char := (l.reverse.dropWhile isWS).reverse

/-- Rust `str::trim` (entry.rs lines 185, 187, 188, 200, 220). -/
def trim (l : List Char) : List Char := trimEnd (trimStart l)

/-- Rust `str::split(sep)`: splits at every occurrence of `sep`, keeping
empty pieces; an empty input yields one empty piece. -/
def splitOnChar (sep : Char) : List Char → List (List Char)
  | [] => [[]]
  | c :: cs =>
    match splitOnChar sep cs with
    | [] => if c = sep then [[], []] else [[c]]
    | h :: t => if c = sep then [] :: h :: t else (c :: h) :: t

/-- Strip one trailing carriage return, as Rust's `str::lines` does to
each produced line. -/
def stripCR (l : List Char) : List Char :=
  if l.getLast? = some '\r' then l.dropLast else l

/-- Rust `str::lines` (entry.rs line 184): split at `'\n'`, drop a final
empty piece produced by a trailing terminator, strip a trailing `'\r'`
from each line. -/
def rustLines (s : List Char) : List (List Char) :=
  if s = [] then []
  else
    let parts := splitOnChar '\n' s
    let parts := if parts.getLast? = some [] then parts.dropLast else parts
    parts.map stripCR

/-- Rust `str::find(pattern)` (entry.rs line 180): index of the first
occurrence of `p` as a contiguous sublist of `s`. -/
def findSubstr : List Char → List Char → Option Nat
  | [], p => if p.isPrefixOf ([] : List Char) then some 0 else none
  | c :: t, p =>
    if p.isPrefixOf (c :: t) then some 0 else (findSubstr t p).map (· + 1)

/-- Whether `p` occurs as a contiguous sublist of `s`; `containsSub s p`
holds exactly when some later line of `s` begins with the text after the
newline of `p` (for `p = "\n---"`: a later line beginning with `---`). -/
def containsSub (s p : List Char) : Bool := (findSubstr s p).isSome

/-- `strip_quotes` (entry.rs lines 223-229).  `none` models the panic of
`&s[1..s.len()-1]` when `s` is a lone quote character (`1..0` is an
invalid range). -/
def strip_quotes (s : List Char) : Option (List Char) :=
  if (s.head? = some '"' ∧ s.getLast? = some '"') ∨
     (s.head? = some '\'' ∧ s.getLast? = some '\'') then
    if s.length = 1 then none else some ((s.drop 1).dropLast)
  else some s

/-- Splitting one frontmatter line at its first `':'` into trimmed key
and value (entry.rs lines 185-188); `none` when the line has no `':'`. -/
def lineKV (raw : List Char) : Option (List Char × List Char) :=
  let l := trim raw
  (l.findIdx? (· = ':')).map fun p => (trim (l.take p), trim (l.drop (p + 1)))

/-- The comma-separated pieces of a bracketed tags value, i.e. of
`val[1..val.len()-1]` (entry.rs lines 198-199). -/
def tagItems (v : List Char) : List (List Char) :=
  splitOnChar ',' ((v.drop 1).dropLast)

/-- A value enclosed in `'['` and `']'` (entry.rs line 197). -/
def bracketed (v : List Char) : Prop :=
  v.head? = some '[' ∧ v.getLast? = some ']'

instance (v : List Char) : Decidable (bracketed v) := by
  unfold bracketed; infer_instance

/-- The `"tags"` arm of the frontmatter key match (entry.rs lines
196-204): a bracketed value replaces the accumulated tags with its
items, quote-stripped, trimmed and with empty items removed; any other
value leaves the accumulated tags `g` unchanged. -/
def tagsFromVal (g : List (List Char)) (v : List Char) :
    Option (List (List Char)) :=
  if bracketed v then
    ((tagItems v).mapM fun t => strip_quotes (trim t)).map fun ts =>
      ts.filter fun t => !t.isEmpty
  else some g

/-- The loop over the lines of the frontmatter block (entry.rs lines
184-208), threading the `title`, `date`, `tags` accumulator; `none`
models a panic inside `strip_quotes`. -/
def processLines :
    List (List Char) → List Char × List Char × List (List Char) →
    Option (List Char × List Char × List (List Char))
  | [], st => some st
  | l :: ls, (t, d, g) =>
    match lineKV l with
    | none => processLines ls (t, d, g)
    | some (k, v) =>
      if k = "title".toList then
        (strip_quotes v).bind fun w => processLines ls (w, d, g)
      else if k = "date".toList then
        (strip_quotes v).bind fun w => processLines ls (t, w, g)
      else if k = "tags".toList then
        (tagsFromVal g v).bind fun w => processLines ls (t, d, w)
      else processLines ls (t, d, g)

/-- Locating the frontmatter block (entry.rs lines 179-182): when the
content starts with `---` and `"\n---"` occurs at offset `e` of
`content[3..]`, the block is `content[4..3+e]` and the body is
`content[3+e+4..].trim_start()`; `none` models the panic of
`content[4..3]` when `e = 0`.  Without a leading block the body is the
whole content and there is no block. -/
def frontmatterSplit (content : List Char) :
    Option (Option (List Char) × List Char) :=
  if ("---".toList).isPrefixOf content then
    match findSubstr (content.drop 3) ("\n---".toList) with
    | some e =>
      if e = 0 then none
      else some (some ((content.drop 4).take (e - 1)),
                 trimStart (content.drop (e + 7)))
    | none => some (none, content)
  else some (none, content)

/-- The text the excerpt is sliced from (entry.rs lines 213-217): the
body, except that a body starting with `'#'` contributes only the text
after its first newline (nothing when it has none). -/
def excerptSrc (body : List Char) : List Char :=
  if body.head? = some '#' then
    match body.findIdx? (· = '\n') with
    | some i => body.drop (i + 1)
    | none => []
  else body

/-- The excerpt (entry.rs lines 212-220): first 300 characters of the
source text, trimmed. -/
def mkExcerpt (body : List Char) : List Char :=
  trim ((excerptSrc body).take 300)

/-- `parse_frontmatter` (entry.rs lines 173-221); `none` models a panic
in the block slicing or in `strip_quotes`. -/
def parse_frontmatter (content : List Char) :
    Option (List Char × List Char × List (List Char) × List Char) :=
  (frontmatterSplit content).bind fun (mb, body) =>
    (match mb with
     | some b => processLines (rustLines b) ([], [], [])
     | none => some ([], [], [])).map
      fun (t, d, g) => (t, d, g, mkExcerpt body)

example : parse_frontmatter ("---\ntitle: \"Hi\"\ndate: 2024\ntags: [a, b]\n---\n# Head\nBody ok".toList) =
    some ("Hi".toList, "2024".toList, ["a".toList, "b".toList], "Body ok".toList) := by decide

example : parse_frontmatter ("---\n---".toList) = none := by decide

example : parse_frontmatter ("no frontmatter here".toList) =
    some ([], [], [], "no frontmatter here".toList) := by decide

example : parse_frontmatter ("---\ntitle: \"\n---\nx".toList) = none := by decide

instance {ε α : Type} [DecidableEq ε] [DecidableEq α] :
    DecidableEq (Except ε α) := fun x y =>
  match x, y with
  | .ok a, .ok b =>
    if h : a = b then .isTrue (by rw [h])
    else .isFalse (by intro hc; cases hc; exact h rfl)
  | .error a, .error b =>
    if h : a = b then .isTrue (by rw [h])
    else .isFalse (by intro hc; cases hc; exact h rfl)
  | .ok _, .error _ => .isFalse (by intro hc; cases hc)
  | .error _, .ok _ => .isFalse (by intro hc; cases hc)

/-- Result of running one request handler: success, a Rust `Err` with
its formatted message, or a panic. -/
inductive RunResult (α : Type) where
  | ok (a : α)
  | err (msg : List Char)
  | panicked
deriving DecidableEq

/-- The OS file-system calls the handlers issue. -/
inductive FsOp where
  | createDirAll (p : List Char)
  | copyFile (src dst : List Char)
  | readToString (p : List Char)
  | removeDirAll (p : List Char)
deriving DecidableEq

/-- `read_file` (file.rs lines 6-8): one `fs::read_to_string` call whose
outcome is the snapshot argument `res`; errors are mapped to a string. -/
def read_file (path : List Char) (res : Except (List Char) (List Char)) :
    RunResult (List Char) × List FsOp :=
  (match res with
   | .ok c => .ok c
   | .error e => .err ("Failed to read file: ".toList ++ e),
   [FsOp.readToString path])

/-- `delete_directory` (entry.rs lines 69-71): one `fs::remove_dir_all`
call, its error mapped to a string. -/
def delete_directory (path : List Char) (res : Except (List Char) Unit) :
    RunResult Unit × List FsOp :=
  (match res with
   | .ok _ => .ok ()
   | .error e => .err ("Failed to delete directory: ".toList ++ e),
   [FsOp.removeDirAll path])

/-- Snapshot of the OS outcomes `copy_file` can observe: the
destination's parent (if any), the `create_dir_all` outcome and the
`fs::copy` outcome (bytes copied on success). -/
structure CopyFs where
  destParent : Option (List Char)
  createRes : Except (List Char) Unit
  copyRes : Except (List Char) Nat
deriving DecidableEq

/-- `copy_file` (entry.rs lines 79-86): `create_dir_all` on the
destination's parent when it exists, then `fs::copy`; the first failing
call's error is mapped to a string. -/
def copy_file (source destination : List Char) (fs : CopyFs) :
    RunResult Unit × List FsOp :=
  match fs.destParent with
  | some parent =>
    match fs.createRes with
    | .error e => (.err ("Failed to create directory: ".toList ++ e),
                   [FsOp.createDirAll parent])
    | .ok _ =>
      match fs.copyRes with
      | .error e => (.err ("Failed to copy file: ".toList ++ e),
                     [FsOp.createDirAll parent, FsOp.copyFile source destination])
      | .ok _ => (.ok (), [FsOp.createDirAll parent, FsOp.copyFile source destination])
  | none =>
    match fs.copyRes with
    | .error e => (.err ("Failed to copy file: ".toList ++ e),
                   [FsOp.copyFile source destination])
    | .ok _ => (.ok (), [FsOp.copyFile source destination])

/-- `fs::Metadata` of one child, as the code reads it: `is_dir` and the
modification time in milliseconds since the epoch (`none` when
`modified()` or `duration_since` fails). -/
structure Meta where
  isDir : Bool
  modifiedMs : Option Nat
deriving DecidableEq

/-- The `mtime_ms` computation (entry.rs lines 53-58 and 147-152):
`as_millis() as u64` truncates to 64 bits, failures give 0. -/
def mtimeMsOf (m : Meta) : Nat :=
  match m.modifiedMs with
  | some ms => ms % 2 ^ 64
  | none => 0

/-- Snapshot of one `ReadDir` child: its name, metadata outcome, whether
`<child>/index.md` exists and what reading it yields. -/
structure ChildState where
  name : List Char
  meta : Except (List Char) Meta
  indexExists : Bool
  indexContent : Except (List Char) (List Char)
deriving DecidableEq

/-- Snapshot of the directory a listing handler is pointed at: whether
the path exists, the `create_dir_all` outcome (used when it does not)
and the `read_dir` outcome (an `error` item models an `Err` entry of the
iterator). -/
structure DirState where
  path : List Char
  dirExists : Bool
  createRes : Except (List Char) Unit
  readDirRes : Except (List Char) (List (Except (List Char) ChildState))
deriving DecidableEq

/-- `DirEntry` (entry.rs lines 11-16). -/
structure DirEntry where
  name : List Char
  is_dir : Bool
  mtime_ms : Nat
deriving DecidableEq

/-- `EntryMetadata` (entry.rs lines 18-27). -/
structure EntryMetadata where
  dirname : List Char
  path : List Char
  mtime_ms : Nat
  title : List Char
  date : List Char
  tags : List (List Char)
  excerpt : List Char
deriving DecidableEq

/-- The loop of `list_directory` (entry.rs lines 47-65): any child or
metadata error aborts the whole listing with its mapped message. -/
def dirEntriesOf : List (Except (List Char) ChildState) → RunResult (List DirEntry)
  | [] => .ok []
  | .error e :: _ => .err ("Failed to read entry: ".toList ++ e)
  | .ok c :: rest =>
    match c.meta with
    | .error e => .err ("Failed to read metadata: ".toList ++ e)
    | .ok m =>
      match dirEntriesOf rest with
      | .ok es => .ok ({ name := c.name, is_dir := m.isDir, mtime_ms := mtimeMsOf m } :: es)
      | r => r

/-- `list_directory` (entry.rs lines 38-66). -/
def list_directory (d : DirState) : RunResult (List DirEntry) :=
  if d.dirExists = false then
    match d.createRes with
    | .error e => .err ("Failed to create directory: ".toList ++ e)
    | .ok _ => .ok []
  else
    match d.readDirRes with
    | .error e => .err ("Failed to read directory: ".toList ++ e)
    | .ok items => dirEntriesOf items

/-- The mutating OS calls `list_directory` performs (entry.rs lines
41-45): only the `create_dir_all` in the not-exists branch; the rest of
the handler only reads. -/
def list_directory_writes (d : DirState) : List FsOp :=
  if d.dirExists = false then [FsOp.createDirAll d.path] else []

/-- One iteration of the `list_entries_with_metadata` loop (entry.rs
lines 122-166): `ok none` means the child is skipped, `ok (some _)`
contributes an entry, `panicked` propagates a `parse_frontmatter`
panic. -/
def processChild (base : List Char) (item : Except (List Char) ChildState) :
    RunResult (Option EntryMetadata) :=
  match item with
  | .error _ => .ok none
  | .ok c =>
    match c.meta with
    | .error _ => .ok none
    | .ok m =>
      if m.isDir = false then .ok none
      else if c.indexExists = false then .ok none
      else
        match c.indexContent with
        | .error _ => .ok none
        | .ok content =>
          match parse_frontmatter content with
          | none => .panicked
          | some (t, d, g, e) =>
            .ok (some { dirname := c.name,
                        path := base ++ '/' :: c.name ++ "/index.md".toList,
                        mtime_ms := mtimeMsOf m,
                        title := t, date := d, tags := g, excerpt := e })

/-- The full loop of `list_entries_with_metadata` over the `read_dir`
items, in order. -/
def collectEntries (base : List Char) :
    List (Except (List Char) ChildState) → RunResult (List EntryMetadata)
  | [] => .ok []
  | it :: rest =>
    match processChild base it with
    | .panicked => .panicked
    | .err m => .err m
    | .ok none => collectEntries base rest
    | .ok (some e) =>
      match collectEntries base rest with
      | .ok es => .ok (e :: es)
      | r => r

/-- The descending-mtime order used by the final sort (entry.rs line
169): `a` may precede `b` when `b.mtime_ms ≤ a.mtime_ms`. -/
def mtimeGE (a b : EntryMetadata) : Prop := b.mtime_ms ≤ a.mtime_ms

instance : DecidableRel mtimeGE := fun a b => by unfold mtimeGE; infer_instance

/-- `list_entries_with_metadata` (entry.rs lines 110-171); Rust's
`sort_by` is a stable sort, modelled by `List.insertionSort`. -/
def list_entries_with_metadata (d : DirState) : RunResult (List EntryMetadata) :=
  if d.dirExists = false then
    match d.createRes with
    | .error e => .err ("Failed to create directory: ".toList ++ e)
    | .ok _ => .ok []
  else
    match d.readDirRes with
    | .error e => .err ("Failed to read directory: ".toList ++ e)
    | .ok items =>
      match collectEntries d.path items with
      | .ok es => .ok (es.insertionSort mtimeGE)
      | r => r

/-- The mutating OS calls `list_entries_with_metadata` performs
(entry.rs lines 113-117): only the `create_dir_all` in the not-exists
branch. -/
def list_entries_with_metadata_writes (d : DirState) : List FsOp :=
  if d.dirExists = false then [FsOp.createDirAll d.path] else []

/-! ### Claim-side vocabulary

Definitions below follow the spec's words; theorems compare the source
embedding above against them. -/

/-- A value that is a lone quote character, the only input on which
`strip_quotes` panics. -/
def loneQuote (v : List Char) : Prop := v = ['"'] ∨ v = ['\'']

instance (v : List Char) : Decidable (loneQuote v) := by
  unfold loneQuote; infer_instance

/-- Total description of quote stripping, per the spec: remove one pair
of surrounding double or single quotes, otherwise return the value. -/
def stripQuotesD (s : List Char) : List Char :=
  if (s.head? = some '"' ∧ s.getLast? = some '"') ∨
     (s.head? = some '\'' ∧ s.getLast? = some '\'') then
    (s.drop 1).dropLast
  else s

/-- One source tag item, with surrounding quotes stripped and
whitespace trimmed. -/
def cleanTag (t : List Char) : List Char := stripQuotesD (trim t)

/-- The tag list a bracketed tags value denotes, per the spec: items in
source order, cleaned, empty items removed. -/
def cleanTagsOf (v : List Char) : List (List Char) :=
  ((tagItems v).map cleanTag).filter fun t => !t.isEmpty

/-- The value carried by the last relevant key/value pair of a list, or
a default when no pair is relevant. -/
def lastPick {β : Type} (P : List Char × List Char → Prop) [DecidablePred P]
    (f : List Char → β) (kvs : List (List Char × List Char)) (dflt : β) : β :=
  match (kvs.filter fun p => decide (P p)).getLast? with
  | some p => f p.2
  | none => dflt

/-- The binding a key receives from a block: the quote-stripped value of
the last line whose key is `key`, or the default when no line binds it. -/
def lastValFor (key : List Char) (lines : List (List Char)) (dflt : List Char) :
    List Char :=
  lastPick (fun p => p.1 = key) stripQuotesD (lines.filterMap lineKV) dflt

/-- The tags binding a block yields: the tag list of the last
`tags` line with a bracketed value, or the default. -/
def lastTagsFor (lines : List (List Char)) (dflt : List (List Char)) :
    List (List Char) :=
  lastPick (fun p => p.1 = "tags".toList ∧ bracketed p.2) cleanTagsOf
    (lines.filterMap lineKV) dflt

/-- A block line on which no quote-stripping panic can occur: its
title/date value is not a lone quote, and when it is a bracketed tags
line none of the trimmed items is a lone quote. -/
def lineSafe (l : List Char) : Prop :=
  match lineKV l with
  | none => True
  | some (k, v) =>
    ((k = "title".toList ∨ k = "date".toList) → ¬ loneQuote v) ∧
    (k = "tags".toList → bracketed v → ∀ t ∈ tagItems v, ¬ loneQuote (trim t))

instance (l : List Char) : Decidable (lineSafe l) :=
  match h : lineKV l with
  | none => .isTrue (by unfold lineSafe; rw [h]; trivial)
  | some (k, v) =>
    decidable_of_iff
      (((k = "title".toList ∨ k = "date".toList) → ¬ loneQuote v) ∧
       (k = "tags".toList → bracketed v → ∀ t ∈ tagItems v, ¬ loneQuote (trim t)))
      (by unfold lineSafe; rw [h])

/-- The text of `body` after its entire first line (empty when `body`
has a single line). -/
def afterFirstLine (body : List Char) : List Char :=
  match body.findIdx? (· = '\n') with
  | some i => body.drop (i + 1)
  | none => []

/-- A `read_dir` child that fails in one of the three per-child ways the
scan tolerates: the entry read fails, its metadata read fails, or its
`index.md` read fails. -/
def childFails : Except (List Char) ChildState → Bool
  | .error _ => true
  | .ok cs =>
    match cs.meta with
    | .error _ => true
    | .ok _ =>
      match cs.indexContent with
      | .error _ => true
      | .ok _ => false

/-- A child that contributes an entry, per the spec: an immediate child
that is a directory containing an `index.md` whose contents can be
read. -/
def qualifies : Except (List Char) ChildState → Bool
  | .error _ => false
  | .ok cs =>
    match cs.meta with
    | .error _ => false
    | .ok m =>
      m.isDir && cs.indexExists &&
        (match cs.indexContent with | .ok _ => true | .error _ => false)

/-- Placeholder record for the unreachable branches of `entryFor`. -/
def fallbackEntry : EntryMetadata := ⟨[], [], 0, [], [], [], []⟩

/-- The entry-metadata record a qualifying child contributes. -/
def entryFor (base : List Char) (c : Except (List Char) ChildState) :
    EntryMetadata :=
  match c with
  | .error _ => fallbackEntry
  | .ok cs =>
    match cs.meta, cs.indexContent with
    | .ok m, .ok content =>
      match (parse_frontmatter content).getD ([], [], [], []) with
      | (t, d, g, e) =>
        ⟨cs.name, base ++ '/' :: cs.name ++ "/index.md".toList,
         mtimeMsOf m, t, d, g, e⟩
    | _, _ => fallbackEntry

/-! ### Supporting lemmas -/

lemma strip_quotes_eq (s : List Char) (h : ¬ loneQuote s) :
    strip_quotes s = some (stripQuotesD s) := by
  unfold strip_quotes stripQuotesD
  by_cases hq : (s.head? = some '"' ∧ s.getLast? = some '"') ∨
      (s.head? = some '\'' ∧ s.getLast? = some '\'')
  · rw [if_pos hq, if_pos hq]
    by_cases hl : s.length = 1
    · exfalso
      apply h
      cases s with
      | nil => simp at hl
      | cons a t =>
        cases t with
        | nil =>
          unfold loneQuote
          rcases hq with ⟨h1, _⟩ | ⟨h1, _⟩ <;> simp_all
        | cons b u => simp [List.length_cons] at hl
    · rw [if_neg hl]
  · rw [if_neg hq, if_neg hq]

lemma mapM_strip (ts : List (List Char))
    (h : ∀ t ∈ ts, ¬ loneQuote (trim t)) :
    (ts.mapM fun t => strip_quotes (trim t)) =
      some (ts.map fun t => stripQuotesD (trim t)) := by
  induction ts with
  | nil => rfl
  | cons a l ih =>
    rw [List.mapM_cons, strip_quotes_eq _ (h a (by simp)),
      ih (fun t ht => h t (List.mem_cons_of_mem _ ht))]
    rfl

lemma lastPick_cons {β : Type} (P : List Char × List Char → Prop)
    [DecidablePred P] (f : List Char → β) (x : List Char × List Char)
    (xs : List (List Char × List Char)) (d : β) :
    lastPick P f (x :: xs) d =
      if P x then lastPick P f xs (f x.2) else lastPick P f xs d := by
  unfold lastPick
  by_cases h : P x
  · rw [if_pos h]
    rw [List.filter_cons_of_pos (by simpa using h)]
    cases hfl : (xs.filter fun p => decide (P p)) with
    | nil => simp
    | cons y ys =>
      rw [List.getLast?_cons_cons]
      cases hg : (y :: ys).getLast? with
      | some p => rfl
      | none => simp at hg
  · rw [if_neg h, List.filter_cons_of_neg (by simpa using h)]

lemma lastValFor_cons_none (key : List Char) (l : List Char)
    (ls : List (List Char)) (d : List Char) (h : lineKV l = none) :
    lastValFor key (l :: ls) d = lastValFor key ls d := by
  unfold lastValFor
  rw [List.filterMap_cons_none h]

lemma lastValFor_cons_some (key : List Char) (l : List Char)
    (ls : List (List Char)) (d : List Char) (k v : List Char)
    (h : lineKV l = some (k, v)) :
    lastValFor key (l :: ls) d =
      if k = key then lastValFor key ls (stripQuotesD v)
      else lastValFor key ls d := by
  unfold lastValFor
  rw [List.filterMap_cons_some h, lastPick_cons]

lemma lastTagsFor_cons_none (l : List Char) (ls : List (List Char))
    (d : List (List Char)) (h : lineKV l = none) :
    lastTagsFor (l :: ls) d = lastTagsFor ls d := by
  unfold lastTagsFor
  rw [List.filterMap_cons_none h]

lemma lastTagsFor_cons_some (l : List Char) (ls : List (List Char))
    (d : List (List Char)) (k v : List Char) (h : lineKV l = some (k, v)) :
    lastTagsFor (l :: ls) d =
      if k = "tags".toList ∧ bracketed v then lastTagsFor ls (cleanTagsOf v)
      else lastTagsFor ls d := by
  unfold lastTagsFor
  rw [List.filterMap_cons_some h, lastPick_cons]

lemma tagsFromVal_bracketed (g : List (List Char)) (v : List Char)
    (hb : bracketed v) (hs : ∀ t ∈ tagItems v, ¬ loneQuote (trim t)) :
    tagsFromVal g v = some (cleanTagsOf v) := by
  unfold tagsFromVal
  rw [if_pos hb, mapM_strip _ hs]
  rfl

lemma processLines_spec (lines : List (List Char)) :
    ∀ t d g, (∀ l ∈ lines, lineSafe l) →
    processLines lines (t, d, g) =
      some (lastValFor ("title".toList) lines t,
            lastValFor ("date".toList) lines d,
            lastTagsFor lines g) := by
  induction lines with
  | nil => intro t d g _; rfl
  | cons l ls ih =>
    intro t d g h
    have hl : lineSafe l := h l (List.mem_cons_self l ls)
    have hls : ∀ x ∈ ls, lineSafe x := fun x hx => h x (List.mem_cons_of_mem _ hx)
    cases hkv : lineKV l with
    | none =>
      rw [lastValFor_cons_none _ _ _ _ hkv, lastValFor_cons_none _ _ _ _ hkv,
        lastTagsFor_cons_none _ _ _ hkv]
      simp only [processLines, hkv]
      exact ih t d g hls
    | some kv =>
      obtain ⟨k, v⟩ := kv
      unfold lineSafe at hl
      rw [hkv] at hl
      rw [lastValFor_cons_some _ _ _ _ _ _ hkv, lastValFor_cons_some _ _ _ _ _ _ hkv,
        lastTagsFor_cons_some _ _ _ _ _ hkv]
      simp only [processLines, hkv]
      by_cases hk1 : k = "title".toList
      · rw [if_pos hk1, strip_quotes_eq v (hl.1 (Or.inl hk1))]
        rw [if_pos hk1, if_neg (fun hc => absurd (hk1.symm.trans hc) (by decide)),
          if_neg (fun hc => absurd (hk1.symm.trans hc.1) (by decide))]
        exact ih _ d g hls
      · rw [if_neg hk1, if_neg hk1]
        by_cases hk2 : k = "date".toList
        · rw [if_pos hk2, strip_quotes_eq v (hl.1 (Or.inr hk2))]
          rw [if_pos hk2,
            if_neg (fun hc => absurd (hk2.symm.trans hc.1) (by decide))]
          exact ih t _ g hls
        · rw [if_neg hk2, if_neg hk2]
          by_cases hk3 : k = "tags".toList
          · rw [if_pos hk3]
            by_cases hb : bracketed v
            · rw [tagsFromVal_bracketed g v hb (hl.2 hk3 hb), if_pos ⟨hk3, hb⟩]
              exact ih t d _ hls
            · have : tagsFromVal g v = some g := by unfold tagsFromVal; rw [if_neg hb]
              rw [this, if_neg (fun hc => hb hc.2)]
              exact ih t d g hls
          · rw [if_neg hk3, if_neg (fun hc => hk3 hc.1)]
            exact ih t d g hls

lemma findSubstr_dash3 (rest : List Char) :
    findSubstr ('-' :: '-' :: '-' :: rest) ("\n---".toList) =
      (findSubstr rest ("\n---".toList)).map (· + 3) := by
  have h1 : (("\n---".toList).isPrefixOf ('-' :: '-' :: '-' :: rest)) = false := rfl
  have h2 : (("\n---".toList).isPrefixOf ('-' :: '-' :: rest)) = false := rfl
  have h3 : (("\n---".toList).isPrefixOf ('-' :: rest)) = false := rfl
  simp only [findSubstr, h1, h2, h3, Bool.false_eq_true, if_false]
  cases findSubstr rest ("\n---".toList) with
  | none => rfl
  | some i => simp only [Option.map_some']

lemma trimEnd_append (l : List Char) :
    trimEnd l ++ (l.reverse.takeWhile isWS).reverse = l := by
  unfold trimEnd
  rw [← List.reverse_append, List.takeWhile_append_dropWhile, List.reverse_reverse]

lemma head?_trim (l : List Char) (c : Char) (h : (trim l).head? = some c) :
    isWS c = false := by
  unfold trim at h
  have h2 : (trimStart l).head? = some c := by
    conv_lhs => rw [← trimEnd_append (trimStart l)]
    rw [List.head?_append, h]
    rfl
  have h3 := List.head?_dropWhile_not isWS l
  unfold trimStart at h2
  rw [h2] at h3
  exact h3

lemma getLast?_trim (l : List Char) (c : Char) (h : (trim l).getLast? = some c) :
    isWS c = false := by
  unfold trim trimEnd at h
  rw [List.getLast?_reverse] at h
  have h3 := List.head?_dropWhile_not isWS ((trimStart l).reverse)
  rw [h] at h3
  exact h3

lemma trim_sublist (l : List Char) : List.Sublist (trim l) l := by
  unfold trim trimEnd trimStart
  have h1 : List.Sublist (l.dropWhile isWS) l := List.dropWhile_sublist isWS
  have h2 : List.Sublist ((l.dropWhile isWS).reverse.dropWhile isWS)
      (l.dropWhile isWS).reverse := List.dropWhile_sublist isWS
  have h3 := h2.reverse
  rw [List.reverse_reverse] at h3
  exact h3.trans h1

lemma trim_length_le (l : List Char) : (trim l).length ≤ l.length :=
  (trim_sublist l).length_le

lemma parse_frontmatter_excerpt (content : List Char)
    (t d : List Char) (g : List (List Char)) (e : List Char)
    (hp : parse_frontmatter content = some (t, d, g, e)) :
    ∃ mb body, frontmatterSplit content = some (mb, body) ∧
      e = mkExcerpt body := by
  unfold parse_frontmatter at hp
  cases hsp : frontmatterSplit content with
  | none => rw [hsp] at hp; cases hp
  | some p =>
    obtain ⟨mb, body⟩ := p
    refine ⟨mb, body, rfl, ?_⟩
    rw [hsp] at hp
    cases mb with
    | none =>
      simp only [Option.bind_some, Option.map] at hp
      cases hp
      rfl
    | some b =>
      dsimp only [Option.bind] at hp
      cases hpl : processLines (rustLines b) ([], [], []) with
      | none => rw [hpl] at hp; cases hp
      | some q =>
        obtain ⟨t', d', g'⟩ := q
        rw [hpl] at hp
        simp only [Option.map_some'] at hp
        cases hp
        rfl

lemma processChild_of_fails (b : List Char)
    (c : Except (List Char) ChildState) (h : childFails c = true) :
    processChild b c = .ok none := by
  cases c with
  | error e => rfl
  | ok cs =>
    cases hm : cs.meta with
    | error e => simp [processChild, hm]
    | ok m =>
      cases hic : cs.indexContent with
      | error e =>
        cases hd : m.isDir with
        | false => simp [processChild, hm, hd]
        | true =>
          cases hie : cs.indexExists with
          | false => simp [processChild, hm, hd, hie]
          | true => simp [processChild, hm, hd, hie, hic]
      | ok content =>
        exfalso
        simp [childFails, hm, hic] at h

lemma processChild_ne_err (b : List Char)
    (c : Except (List Char) ChildState) (m : List Char) :
    processChild b c ≠ .err m := by
  intro h
  cases c with
  | error e => simp [processChild] at h
  | ok cs =>
    cases hm : cs.meta with
    | error e => simp [processChild, hm] at h
    | ok me =>
      cases hd : me.isDir with
      | false => simp [processChild, hm, hd] at h
      | true =>
        cases hie : cs.indexExists with
        | false => simp [processChild, hm, hd, hie] at h
        | true =>
          cases hic : cs.indexContent with
          | error e => simp [processChild, hm, hd, hie, hic] at h
          | ok content =>
            simp only [processChild, hm, hd, hie, hic] at h
            cases hpf : parse_frontmatter content with
            | none => simp [hpf] at h
            | some q => simp [hpf] at h

lemma processChild_none_qualifies (b : List Char)
    (c : Except (List Char) ChildState)
    (h : processChild b c = .ok none) : qualifies c = false := by
  cases c with
  | error e => rfl
  | ok cs =>
    cases hm : cs.meta with
    | error e => simp [qualifies, hm]
    | ok m =>
      cases hd : m.isDir with
      | false => simp [qualifies, hm, hd]
      | true =>
        cases hie : cs.indexExists with
        | false => simp [qualifies, hm, hd, hie]
        | true =>
          cases hic : cs.indexContent with
          | error e => simp [qualifies, hm, hd, hie, hic]
          | ok content =>
            exfalso
            simp only [processChild, hm, hd, hie, hic] at h
            cases hpf : parse_frontmatter content with
            | none => rw [hpf] at h; cases h
            | some q =>
              obtain ⟨t, d, g, ex⟩ := q
              rw [hpf] at h
              simp at h

lemma processChild_some_entry (b : List Char)
    (c : Except (List Char) ChildState) (e : EntryMetadata)
    (h : processChild b c = .ok (some e)) :
    qualifies c = true ∧ e = entryFor b c := by
  cases c with
  | error er => simp [processChild] at h
  | ok cs =>
    cases hm : cs.meta with
    | error er => simp [processChild, hm] at h
    | ok m =>
      cases hd : m.isDir with
      | false => simp [processChild, hm, hd] at h
      | true =>
        cases hie : cs.indexExists with
        | false => simp [processChild, hm, hd, hie] at h
        | true =>
          cases hic : cs.indexContent with
          | error er => simp [processChild, hm, hd, hie, hic] at h
          | ok content =>
            cases hpf : parse_frontmatter content with
            | none => simp [processChild, hm, hd, hie, hic, hpf] at h
            | some q =>
              obtain ⟨t, d, g, ex⟩ := q
              refine ⟨by simp [qualifies, hm, hd, hie, hic], ?_⟩
              have hform : processChild b (Except.ok cs) =
                  .ok (some (entryFor b (Except.ok cs))) := by
                simp [processChild, entryFor, hm, hd, hie, hic, hpf]
              rw [hform] at h
              injection h with h1
              injection h1 with h2
              exact h2.symm

lemma collectEntries_ne_err (b : List Char)
    (items : List (Except (List Char) ChildState)) (m : List Char) :
    collectEntries b items ≠ .err m := by
  induction items with
  | nil => intro h; exact RunResult.noConfusion h
  | cons it rest ih =>
    intro h
    simp only [collectEntries] at h
    cases hpc : processChild b it with
    | panicked => simp [hpc] at h
    | err mm => exact processChild_ne_err b it mm hpc
    | ok o =>
      rw [hpc] at h
      cases o with
      | none => exact ih h
      | some e =>
        cases hrec : collectEntries b rest with
        | ok es => rw [hrec] at h; exact RunResult.noConfusion h
        | panicked => rw [hrec] at h; exact RunResult.noConfusion h
        | err m2 =>
          rw [hrec] at h
          injection h with h1
          exact ih (h1 ▸ hrec)

lemma collectEntries_skip (b : List Char)
    (c : Except (List Char) ChildState) (hc : childFails c = true) :
    ∀ pre post, collectEntries b (pre ++ c :: post) =
      collectEntries b (pre ++ post) := by
  intro pre
  induction pre with
  | nil =>
    intro post
    show collectEntries b (c :: post) = collectEntries b post
    simp only [collectEntries, processChild_of_fails b c hc]
  | cons p pre' ih =>
    intro post
    show collectEntries b (p :: (pre' ++ c :: post)) =
      collectEntries b (p :: (pre' ++ post))
    simp only [collectEntries]
    rw [ih post]

lemma collectEntries_ok (b : List Char) :
    ∀ items es, collectEntries b items = .ok es →
      es = (items.filter qualifies).map (entryFor b) := by
  intro items
  induction items with
  | nil =>
    intro es h
    injection h with h1
    rw [← h1]
    rfl
  | cons it rest ih =>
    intro es h
    simp only [collectEntries] at h
    cases hpc : processChild b it with
    | panicked => simp [hpc] at h
    | err m => exact absurd hpc (processChild_ne_err b it m)
    | ok o =>
      rw [hpc] at h
      cases o with
      | none =>
        rw [List.filter_cons_of_neg
          (by simp [processChild_none_qualifies b it hpc])]
        exact ih es h
      | some e =>
        obtain ⟨hq, he⟩ := processChild_some_entry b it e hpc
        cases hrec : collectEntries b rest with
        | err m2 => exact absurd hrec (collectEntries_ne_err b rest m2)
        | panicked => rw [hrec] at h; exact RunResult.noConfusion h
        | ok es' =>
          rw [hrec] at h
          injection h with h1
          rw [← h1, List.filter_cons_of_pos (by simp [hq]), List.map_cons,
            ih es' hrec, he]

instance : IsTotal EntryMetadata mtimeGE :=
  ⟨fun a b => Nat.le_total b.mtime_ms a.mtime_ms⟩

instance : IsTrans EntryMetadata mtimeGE :=
  ⟨fun _ _ _ hab hbc => Nat.le_trans hbc hab⟩

lemma listEWM_ok_case (p : List Char) (cr : Except (List Char) Unit)
    (items : List (Except (List Char) ChildState)) :
    list_entries_with_metadata ⟨p, true, cr, .ok items⟩ =
      match collectEntries p items with
      | .ok es => .ok (es.insertionSort mtimeGE)
      | r => r := rfl

/-! ### Claim theorems -/

/-- C2, status code_bug.  The claim states `parse_frontmatter` returns
without panicking on every input, naming in particular a value that is
a single quote character and content whose closing `---` line
immediately follows the opening marker.  The code panics on exactly
those inputs: `&s[1..s.len()-1]` in `strip_quotes` is the invalid range
`1..0` for the lone quote `"`, and `&content[4..3+end]` is the invalid
range `4..3` when the closing marker immediately follows the opening
one.  Evaluating the embedding (where `none` models the panic): -/
theorem C2_panic_evaluation :
    parse_frontmatter ("---\ntitle: \"\n---\nbody".toList) = none ∧
    strip_quotes ("\"".toList) = none ∧
    parse_frontmatter ("---\n---".toList) = none :=
  ⟨by decide, by decide, by decide⟩

/-- C3, counterexample.  The claim says both listing operations leave
the file system unchanged for every path argument; but on a path that
does not exist, a call performs `create_dir_all` (a mutating OS call)
and still returns successfully, so the directory is created as a side
effect of a \"read-only\" listing. -/
theorem C3_not_read_only :
    list_directory ⟨"p".toList, false, .ok (), .ok []⟩ = .ok [] ∧
    list_directory_writes ⟨"p".toList, false, .ok (), .ok []⟩ =
      [FsOp.createDirAll ("p".toList)] ∧
    list_entries_with_metadata_writes ⟨"p".toList, false, .ok (), .ok []⟩ ≠
      [] := by
  refine ⟨rfl, rfl, by decide⟩

/-- C3, amended: when the path exists, `list_directory` and
`list_entries_with_metadata` perform no mutating OS call (they are
read-only projections of the snapshot); when it does not exist, each
creates the directory with `create_dir_all` and returns the empty
listing. -/
theorem C3_read_only_when_exists :
    (∀ p cr rd, list_directory_writes ⟨p, true, cr, rd⟩ = [] ∧
        list_entries_with_metadata_writes ⟨p, true, cr, rd⟩ = []) ∧
    (∀ p cr rd, list_directory_writes ⟨p, false, cr, rd⟩ =
          [FsOp.createDirAll p] ∧
        list_entries_with_metadata_writes ⟨p, false, cr, rd⟩ =
          [FsOp.createDirAll p]) ∧
    (∀ p rd, list_directory ⟨p, false, .ok (), rd⟩ = .ok [] ∧
        list_entries_with_metadata ⟨p, false, .ok (), rd⟩ = .ok []) :=
  ⟨fun _ _ _ => ⟨rfl, rfl⟩, fun _ _ _ => ⟨rfl, rfl⟩, fun _ _ => ⟨rfl, rfl⟩⟩

/-- C10, counterexample.  The claim says every handler calls a single
OS primitive, performing no other file-system operation; but
`copy_file` issues two OS calls on an ordinary destination with a
parent directory: `create_dir_all` and then `fs::copy`. -/
theorem C10_copy_two_calls :
    (copy_file ("s".toList) ("d/f".toList)
        ⟨some ("d".toList), .ok (), .ok 5⟩).2 =
      [FsOp.createDirAll ("d".toList),
       FsOp.copyFile ("s".toList) ("d/f".toList)] ∧
    ((copy_file ("s".toList) ("d/f".toList)
        ⟨some ("d".toList), .ok (), .ok 5⟩).2).length ≠ 1 := by
  refine ⟨rfl, by decide⟩

/-- C10, amended: `read_file` and `delete_directory` call a single OS
primitive and map its error to a string; `copy_file` first ensures the
destination's parent directory exists with `create_dir_all` and then
calls `fs::copy`, mapping whichever call fails to a string (one single
call only when the destination has no parent). -/
theorem C10_handler_behaviour :
    (∀ p c, read_file p (.ok c) = (.ok c, [FsOp.readToString p])) ∧
    (∀ p e, read_file p (.error e) =
        (.err ("Failed to read file: ".toList ++ e),
         [FsOp.readToString p])) ∧
    (∀ p, delete_directory p (.ok ()) = (.ok (), [FsOp.removeDirAll p])) ∧
    (∀ p e, delete_directory p (.error e) =
        (.err ("Failed to delete directory: ".toList ++ e),
         [FsOp.removeDirAll p])) ∧
    (∀ s t par n, copy_file s t ⟨some par, .ok (), .ok n⟩ =
        (.ok (), [FsOp.createDirAll par, FsOp.copyFile s t])) ∧
    (∀ s t par e cr, copy_file s t ⟨some par, .error e, cr⟩ =
        (.err ("Failed to create directory: ".toList ++ e),
         [FsOp.createDirAll par])) ∧
    (∀ s t par e, copy_file s t ⟨some par, .ok (), .error e⟩ =
        (.err ("Failed to copy file: ".toList ++ e),
         [FsOp.createDirAll par, FsOp.copyFile s t])) ∧
    (∀ s t cr n, copy_file s t ⟨none, cr, .ok n⟩ =
        (.ok (), [FsOp.copyFile s t])) :=
  ⟨fun _ _ => rfl, fun _ _ => rfl, fun _ => rfl, fun _ _ => rfl,
   fun _ _ _ _ => rfl, fun _ _ _ _ _ => rfl, fun _ _ _ _ => rfl,
   fun _ _ _ _ => rfl⟩

/-- C4, confirmed.  When the top-level `read_dir` succeeds, a child
whose entry read fails, whose metadata read fails, or whose `index.md`
read fails (`childFails`) is skipped: the listing equals the listing of
the remaining children, and the handler never returns `Err` after the
top-level read succeeded. -/
theorem C4_per_child_failures_skipped :
    (∀ p cr pre c post, childFails c = true →
      list_entries_with_metadata ⟨p, true, cr, .ok (pre ++ c :: post)⟩ =
        list_entries_with_metadata ⟨p, true, cr, .ok (pre ++ post)⟩) ∧
    (∀ p cr items m,
      list_entries_with_metadata ⟨p, true, cr, .ok items⟩ ≠ .err m) := by
  constructor
  · intro p cr pre c post hc
    rw [listEWM_ok_case, listEWM_ok_case, collectEntries_skip p c hc pre post]
  · intro p cr items m h
    rw [listEWM_ok_case] at h
    cases hce : collectEntries p items with
    | ok es => rw [hce] at h; exact RunResult.noConfusion h
    | panicked => rw [hce] at h; exact RunResult.noConfusion h
    | err m2 => exact collectEntries_ne_err p items m2 hce

/-- C5, confirmed.  When the listing succeeds, its entries are, up to
the final reordering sort, exactly the records of the children that
qualify: immediate children that are directories containing an
`index.md` whose contents can be read.  Children that are not
directories or lack `index.md` contribute nothing. -/
theorem C5_entries_are_qualifying_children :
    ∀ p cr items l,
      list_entries_with_metadata ⟨p, true, cr, .ok items⟩ = .ok l →
      l.Perm ((items.filter qualifies).map (entryFor p)) := by
  intro p cr items l h
  rw [listEWM_ok_case] at h
  cases hce : collectEntries p items with
  | err m => exact absurd hce (collectEntries_ne_err p items m)
  | panicked => rw [hce] at h; exact RunResult.noConfusion h
  | ok es =>
    rw [hce] at h
    injection h with h1
    rw [← h1, ← collectEntries_ok p items es hce]
    exact List.perm_insertionSort mtimeGE es

/-- C6, confirmed.  The parser binds only the keys `title`, `date` and
`tags`: a block line with any other key leaves the accumulated state
unchanged, and content that does not start with `---` yields empty
title and date, no tags, and an excerpt sliced from the whole input. -/
theorem C6_only_three_keys :
    (∀ l k v ls t d g, lineKV l = some (k, v) →
      k ≠ "title".toList → k ≠ "date".toList → k ≠ "tags".toList →
      processLines (l :: ls) (t, d, g) = processLines ls (t, d, g)) ∧
    (∀ content, ("---".toList).isPrefixOf content = false →
      parse_frontmatter content = some ([], [], [], mkExcerpt content)) := by
  constructor
  · intro l k v ls t d g hkv h1 h2 h3
    simp only [processLines, hkv]
    rw [if_neg h1, if_neg h2, if_neg h3]
  · intro content h
    unfold parse_frontmatter frontmatterSplit
    rw [if_neg (by rw [h]; exact Bool.false_ne_true)]
    rfl

/-- C7, confirmed.  A bracketed tags value yields the items of the
bracketed comma-separated list in source order, each quote-stripped and
trimmed, with items empty after cleaning removed (so the result embeds
into the cleaned item list as a sublist and contains no empty tag); a
tags value not enclosed in `[` and `]` leaves the initial empty tag
list, i.e. yields the empty list. -/
theorem C7_tags_value :
    (∀ g v ts, bracketed v → (∀ t ∈ tagItems v, ¬ loneQuote (trim t)) →
      tagsFromVal g v = some ts →
      ts = ((tagItems v).map cleanTag).filter (fun t => !t.isEmpty) ∧
      List.Sublist ts ((tagItems v).map cleanTag) ∧
      ∀ t ∈ ts, t ≠ []) ∧
    (∀ v, ¬ bracketed v → tagsFromVal [] v = some []) := by
  constructor
  · intro g v ts hb hs h
    rw [tagsFromVal_bracketed g v hb hs] at h
    injection h with h1
    have hts : ts = ((tagItems v).map cleanTag).filter (fun t => !t.isEmpty) := by
      rw [← h1]
      rfl
    refine ⟨hts, ?_, ?_⟩
    · rw [hts]
      exact List.filter_sublist _
    · intro t ht
      rw [hts] at ht
      have := (List.mem_filter.mp ht).2
      simpa [List.isEmpty_iff] using this
  · intro v hb
    unfold tagsFromVal
    rw [if_neg hb]

/-- C8, confirmed.  Whenever `list_entries_with_metadata` succeeds, the
returned list is sorted by `mtime_ms` in descending order: each entry's
`mtime_ms` is at least that of the entry following it. -/
theorem C8_sorted_newest_first :
    ∀ d l, list_entries_with_metadata d = .ok l →
      ∀ i, (h : i + 1 < l.length) →
        (l.get ⟨i + 1, h⟩).mtime_ms ≤
          (l.get ⟨i, Nat.lt_of_succ_lt h⟩).mtime_ms := by
  intro d l hl
  have hp : l.Pairwise mtimeGE := by
    obtain ⟨p, ex, cr, rd⟩ := d
    cases ex with
    | false =>
      cases cr with
      | ok u =>
        have hval : list_entries_with_metadata ⟨p, false, .ok u, rd⟩ =
            .ok [] := rfl
        rw [hval] at hl
        injection hl with h1
        rw [← h1]
        exact List.Pairwise.nil
      | error e =>
        have hval : list_entries_with_metadata ⟨p, false, .error e, rd⟩ =
            .err ("Failed to create directory: ".toList ++ e) := rfl
        rw [hval] at hl
        exact RunResult.noConfusion hl
    | true =>
      cases rd with
      | error e =>
        have hval : list_entries_with_metadata ⟨p, true, cr, .error e⟩ =
            .err ("Failed to read directory: ".toList ++ e) := rfl
        rw [hval] at hl
        exact RunResult.noConfusion hl
      | ok items =>
        rw [listEWM_ok_case] at hl
        cases hce : collectEntries p items with
        | err m => exact absurd hce (collectEntries_ne_err p items m)
        | panicked => rw [hce] at hl; exact RunResult.noConfusion hl
        | ok es =>
          rw [hce] at hl
          injection hl with h1
          rw [← h1]
          exact List.sorted_insertionSort mtimeGE es
  intro i h
  exact (List.pairwise_iff_get.mp hp) ⟨i, Nat.lt_of_succ_lt h⟩ ⟨i + 1, h⟩
    (Nat.lt_succ_self i)

/-- C9, confirmed.  Every excerpt a successful parse returns has at
most 300 characters and neither leading nor trailing whitespace; and
when the body after the frontmatter block starts with `'#'`, the
excerpt is sliced from the text after the body's first newline, so the
body's entire first line is excluded (the excerpt embeds into that
remainder). -/
theorem C9_excerpt_shape :
    ∀ content t d g e, parse_frontmatter content = some (t, d, g, e) →
      e.length ≤ 300 ∧
      (∀ c, e.head? = some c → isWS c = false) ∧
      (∀ c, e.getLast? = some c → isWS c = false) ∧
      (∀ mb body, frontmatterSplit content = some (mb, body) →
        body.head? = some '#' →
        e = trim ((afterFirstLine body).take 300) ∧
        List.Sublist e (afterFirstLine body)) := by
  intro content t d g e hp
  obtain ⟨mb, body, hsp, he⟩ := parse_frontmatter_excerpt content t d g e hp
  subst he
  refine ⟨?_, ?_, ?_, ?_⟩
  · exact le_trans (trim_length_le _) (List.length_take_le _ _)
  · intro c hc
    exact head?_trim _ c hc
  · intro c hc
    exact getLast?_trim _ c hc
  · intro mb' body' hsp' hsh
    rw [hsp] at hsp'
    injection hsp' with hq
    rw [Prod.mk.injEq] at hq
    obtain ⟨-, hbody⟩ := hq
    subst hbody
    have hsrc : excerptSrc body = afterFirstLine body := by
      unfold excerptSrc afterFirstLine
      rw [if_pos hsh]
    constructor
    · unfold mkExcerpt
      rw [hsrc]
    · show List.Sublist (trim ((excerptSrc body).take 300)) (afterFirstLine body)
      rw [hsrc]
      exact (trim_sublist _).trans (List.take_sublist _ _)

/-- C1, counterexample.  The input `"---\n---"` starts with `---` and
its second line begins with `---`, so per the claim the parser should
locate an (empty) block and return bindings and an excerpt; instead the
code evaluates `&content[4..3]` and panics (modelled by `none`). -/
theorem C1_counterexample :
    ("---".toList).isPrefixOf ("---\n---".toList) = true ∧
    (((rustLines ("---\n---".toList)).drop 1).any
      fun l => ("---".toList).isPrefixOf l) = true ∧
    parse_frontmatter ("---\n---".toList) = none :=
  ⟨by decide, by decide, by decide⟩

/-- C1, amended.  For input starting with `---` whose closing marker
search finds `"\n---"` at a nonzero offset `e` of `content[3..]`, and
whose block lines trigger no quote-stripping panic, the parser returns
the block bindings and the excerpt of the body after the closing
marker: the block is `content[4..3+e]`, each of its lines is split at
its first `':'`, values are quote-stripped, the last binding of each of
the keys `title`, `date`, `tags` wins, and the excerpt is sliced from
the trimmed text after the closing marker.  For input without a leading
block (not starting with `---`, or with no later line starting `---`,
i.e. no `"\n---"` occurrence) nothing is bound and the excerpt is
sliced from the whole input. -/
theorem C1_frontmatter_pipeline :
    (∀ content e,
      ("---".toList).isPrefixOf content = true →
      findSubstr (content.drop 3) ("\n---".toList) = some e →
      e ≠ 0 →
      (∀ l ∈ rustLines ((content.drop 4).take (e - 1)), lineSafe l) →
      parse_frontmatter content =
        some (lastValFor ("title".toList)
                (rustLines ((content.drop 4).take (e - 1))) [],
              lastValFor ("date".toList)
                (rustLines ((content.drop 4).take (e - 1))) [],
              lastTagsFor (rustLines ((content.drop 4).take (e - 1))) [],
              mkExcerpt (trimStart (content.drop (e + 7))))) ∧
    (∀ content,
      ¬ (("---".toList).isPrefixOf content = true ∧
         containsSub content ("\n---".toList) = true) →
      parse_frontmatter content = some ([], [], [], mkExcerpt content)) := by
  constructor
  · intro content e h1 hf he hsafe
    unfold parse_frontmatter frontmatterSplit
    rw [if_pos h1, hf]
    dsimp only
    rw [if_neg he]
    dsimp only [Option.bind]
    rw [processLines_spec (rustLines ((content.drop 4).take (e - 1)))
      [] [] [] hsafe]
    rfl
  · intro content hn
    by_cases h1 : ("---".toList).isPrefixOf content = true
    · have h2 : containsSub content ("\n---".toList) = false := by
        cases hcc : containsSub content ("\n---".toList) with
        | false => rfl
        | true => exact absurd ⟨h1, hcc⟩ hn
      have hpre : List.IsPrefix ("---".toList) content :=
        List.isPrefixOf_iff_prefix.mp h1
      obtain ⟨rest, hrest⟩ := hpre
      have hfind : findSubstr (content.drop 3) ("\n---".toList) = none := by
        rw [← hrest]
        have hd3 : (("---".toList ++ rest).drop 3) = rest := rfl
        rw [hd3]
        unfold containsSub at h2
        rw [← hrest] at h2
        rw [show ("---".toList ++ rest) = '-' :: '-' :: '-' :: rest from rfl,
          findSubstr_dash3 rest] at h2
        cases hfr : findSubstr rest ("\n---".toList) with
        | none => rfl
        | some i => rw [hfr] at h2; simp at h2
      unfold parse_frontmatter frontmatterSplit
      rw [if_pos h1, hfind]
      rfl
    · unfold parse_frontmatter frontmatterSplit
      rw [if_neg h1]
      rfl

/-- C1, witness: the amended pipeline theorem applied to a concrete
document with title, date, tags, an unknown key and a heading. -/
theorem C1_witness :
    ("---".toList).isPrefixOf
      ("---\ntitle: 'A'\ndate: 2024\ntags: [x, y]\nauthor: bob\n---\n# H\nSome body".toList) = true ∧
    findSubstr
      (("---\ntitle: 'A'\ndate: 2024\ntags: [x, y]\nauthor: bob\n---\n# H\nSome body".toList).drop 3)
      ("\n---".toList) = some 47 ∧
    (47 : Nat) ≠ 0 ∧
    (∀ l ∈ rustLines
        ((("---\ntitle: 'A'\ndate: 2024\ntags: [x, y]\nauthor: bob\n---\n# H\nSome body".toList).drop 4).take (47 - 1)),
      lineSafe l) ∧
    parse_frontmatter
      ("---\ntitle: 'A'\ndate: 2024\ntags: [x, y]\nauthor: bob\n---\n# H\nSome body".toList) =
      some (lastValFor ("title".toList)
              (rustLines ((("---\ntitle: 'A'\ndate: 2024\ntags: [x, y]\nauthor: bob\n---\n# H\nSome body".toList).drop 4).take (47 - 1))) [],
            lastValFor ("date".toList)
              (rustLines ((("---\ntitle: 'A'\ndate: 2024\ntags: [x, y]\nauthor: bob\n---\n# H\nSome body".toList).drop 4).take (47 - 1))) [],
            lastTagsFor
              (rustLines ((("---\ntitle: 'A'\ndate: 2024\ntags: [x, y]\nauthor: bob\n---\n# H\nSome body".toList).drop 4).take (47 - 1))) [],
            mkExcerpt (trimStart
              (("---\ntitle: 'A'\ndate: 2024\ntags: [x, y]\nauthor: bob\n---\n# H\nSome body".toList).drop (47 + 7)))) :=
  ⟨by decide, by decide, by decide, by decide,
   C1_frontmatter_pipeline.1 _ 47 (by decide) (by decide) (by decide) (by decide)⟩

/-- C4, witness: a child whose entry read fails is skipped and the
listing equals that of the remaining children. -/
theorem C4_witness :
    childFails (Except.error ("boom".toList) :
      Except (List Char) ChildState) = true ∧
    list_entries_with_metadata
      ⟨"base".toList, true, .ok (),
       .ok ([] ++ Except.error ("boom".toList) ::
         [Except.ok (⟨"a".toList, .ok (⟨true, some 5⟩ : Meta), true,
           .ok ("hello".toList)⟩ : ChildState)])⟩ =
    list_entries_with_metadata
      ⟨"base".toList, true, .ok (),
       .ok ([] ++
         [Except.ok (⟨"a".toList, .ok (⟨true, some 5⟩ : Meta), true,
           .ok ("hello".toList)⟩ : ChildState)])⟩ :=
  ⟨by decide,
   C4_per_child_failures_skipped.1 ("base".toList) (.ok ()) []
     (Except.error ("boom".toList))
     [Except.ok (⟨"a".toList, .ok (⟨true, some 5⟩ : Meta), true,
       .ok ("hello".toList)⟩ : ChildState)] (by decide)⟩

/-- C5, witness: a directory with one qualifying child lists exactly
that child's record, a permutation of the qualifying projection. -/
theorem C5_witness :
    list_entries_with_metadata
      ⟨"base".toList, true, .ok (),
       .ok [Except.ok (⟨"a".toList, .ok (⟨true, some 5⟩ : Meta), true,
         .ok ("hello".toList)⟩ : ChildState)]⟩ =
      .ok [⟨"a".toList, "base/a/index.md".toList, 5, [], [], [],
        "hello".toList⟩] ∧
    List.Perm
      [(⟨"a".toList, "base/a/index.md".toList, 5, [], [], [],
        "hello".toList⟩ : EntryMetadata)]
      (([Except.ok (⟨"a".toList, .ok (⟨true, some 5⟩ : Meta), true,
          .ok ("hello".toList)⟩ : ChildState)].filter qualifies).map
        (entryFor ("base".toList))) :=
  ⟨by decide,
   C5_entries_are_qualifying_children ("base".toList) (.ok ()) _ _ (by decide)⟩

/-- C6, witness: an `author` line changes nothing, and content without
a leading `---` binds nothing. -/
theorem C6_witness :
    lineKV ("author: bob".toList) = some ("author".toList, "bob".toList) ∧
    processLines (("author: bob".toList) :: []) ([], [], []) =
      processLines [] ([], [], []) ∧
    ("---".toList).isPrefixOf ("hello".toList) = false ∧
    parse_frontmatter ("hello".toList) =
      some ([], [], [], mkExcerpt ("hello".toList)) :=
  ⟨by decide,
   C6_only_three_keys.1 ("author: bob".toList) ("author".toList)
     ("bob".toList) [] [] [] [] (by decide) (by decide) (by decide) (by decide),
   by decide,
   C6_only_three_keys.2 ("hello".toList) (by decide)⟩

/-- C7, witness: a concrete bracketed tags value with quotes,
whitespace and an empty item. -/
theorem C7_witness :
    bracketed ("[ 'a', b ,, c ]".toList) ∧
    (∀ t ∈ tagItems ("[ 'a', b ,, c ]".toList), ¬ loneQuote (trim t)) ∧
    tagsFromVal [] ("[ 'a', b ,, c ]".toList) =
      some ["a".toList, "b".toList, "c".toList] ∧
    (["a".toList, "b".toList, "c".toList] =
      ((tagItems ("[ 'a', b ,, c ]".toList)).map cleanTag).filter
        (fun t => !t.isEmpty) ∧
     List.Sublist ["a".toList, "b".toList, "c".toList]
       ((tagItems ("[ 'a', b ,, c ]".toList)).map cleanTag) ∧
     ∀ t ∈ ["a".toList, "b".toList, "c".toList], t ≠ []) :=
  ⟨by decide, by decide, by decide,
   C7_tags_value.1 [] ("[ 'a', b ,, c ]".toList)
     ["a".toList, "b".toList, "c".toList] (by decide) (by decide) (by decide)⟩

/-- C8, witness: two children with mtimes 5 and 7 list newest first,
and the adjacent-order inequality holds. -/
theorem C8_witness :
    list_entries_with_metadata
      ⟨"base".toList, true, .ok (),
       .ok [Except.ok (⟨"a".toList, .ok (⟨true, some 5⟩ : Meta), true,
              .ok ("hello".toList)⟩ : ChildState),
            Except.ok (⟨"b".toList, .ok (⟨true, some 7⟩ : Meta), true,
              .ok ("world".toList)⟩ : ChildState)]⟩ =
      .ok [⟨"b".toList, "base/b/index.md".toList, 7, [], [], [],
             "world".toList⟩,
           ⟨"a".toList, "base/a/index.md".toList, 5, [], [], [],
             "hello".toList⟩] ∧
    (([⟨"b".toList, "base/b/index.md".toList, 7, [], [], [],
         "world".toList⟩,
       (⟨"a".toList, "base/a/index.md".toList, 5, [], [], [],
         "hello".toList⟩ : EntryMetadata)].get ⟨0 + 1, (by decide)⟩).mtime_ms ≤
      ([⟨"b".toList, "base/b/index.md".toList, 7, [], [], [],
          "world".toList⟩,
        (⟨"a".toList, "base/a/index.md".toList, 5, [], [], [],
          "hello".toList⟩ : EntryMetadata)].get
        ⟨0, Nat.lt_of_succ_lt (by decide)⟩).mtime_ms) :=
  ⟨by decide,
   C8_sorted_newest_first
     ⟨"base".toList, true, .ok (),
      .ok [Except.ok (⟨"a".toList, .ok (⟨true, some 5⟩ : Meta), true,
             .ok ("hello".toList)⟩ : ChildState),
           Except.ok (⟨"b".toList, .ok (⟨true, some 7⟩ : Meta), true,
             .ok ("world".toList)⟩ : ChildState)]⟩
     [⟨"b".toList, "base/b/index.md".toList, 7, [], [], [],
        "world".toList⟩,
      ⟨"a".toList, "base/a/index.md".toList, 5, [], [], [],
        "hello".toList⟩]
     (by decide) 0 (by decide)⟩

/-- C9, witness: a parsed document whose body starts with a heading;
the excerpt is short, trimmed, and excludes the heading line. -/
theorem C9_witness :
    parse_frontmatter ("---\ntitle: T\n---\n# Head\nBody text here".toList) =
      some ("T".toList, [], [], "Body text here".toList) ∧
    (("Body text here".toList).length ≤ 300 ∧
     (∀ c, ("Body text here".toList).head? = some c → isWS c = false) ∧
     (∀ c, ("Body text here".toList).getLast? = some c → isWS c = false) ∧
     (∀ mb body,
       frontmatterSplit ("---\ntitle: T\n---\n# Head\nBody text here".toList) =
         some (mb, body) →
       body.head? = some '#' →
       ("Body text here".toList) = trim ((afterFirstLine body).take 300) ∧
       List.Sublist ("Body text here".toList) (afterFirstLine body))) :=
  ⟨by decide,
   C9_excerpt_shape ("---\ntitle: T\n---\n# Head\nBody text here".toList)
     ("T".toList) [] [] ("Body text here".toList) (by decide)⟩

end Lifespeed
